import Mathlib

/- Shallow embedding of the trend-scoring core of the movie/TV review pipeline
   (src/movie_trend_analyst.py and src/tv_trend_analyst.py).

   Modelling conventions:
   * Python str is modelled as String / List Char; all inputs appearing in the
     claims are ASCII, and the ASCII-faithful versions of the Python character
     predicates are used.
   * Python collections.Counter is modelled as an insertion-ordered association
     list (List (String × Nat)); Counter.most_common(n) (CPython: a stable
     descending sort of the items by count — heapq.nlargest keeps insertion
     order among equal counts — truncated to n) is modelled as Mathlib's stable
     List.insertionSort by descending count, then List.take n.
   * The source scrapers are stubbed at exactly the boundary the spec draws:
     an aggregation run is a pure function of the per-source responses.
   * Python code that can raise on some input is modelled with Option; the
     only such spot in the aggregation core is title.split()[0] inside the
     plausibility filters, which would raise IndexError on a whitespace-only
     title reaching that line. -/

namespace TrendCore

open scoped List

/-! ### ASCII character helpers -/

def isUpperA (c : Char) : Bool := 'A' ≤ c && c ≤ 'Z'

def isLowerA (c : Char) : Bool := 'a' ≤ c && c ≤ 'z'

def isAlphaA (c : Char) : Bool := isUpperA c || isLowerA c

def isDigitA (c : Char) : Bool := '0' ≤ c && c ≤ '9'

/-- Python str.split() / regex \s whitespace (ASCII). -/
def isSpaceA (c : Char) : Bool :=
  c == ' ' || c == '\t' || c == '\n' || c == '\r' || c == '\x0b' || c == '\x0c'

/-- Python str.lower() on an ASCII character. -/
def lowerChar (c : Char) : Char :=
  if isUpperA c then Char.ofNat (c.toNat + 32) else c

def pyLower (s : List Char) : List Char := s.map lowerChar

/-! ### List-of-char string helpers -/

def isPre : List Char → List Char → Bool
  | [], _ => true
  | _ :: _, [] => false
  | a :: as, b :: bs => a == b && isPre as bs

/-- Python substring test: needle in hay. -/
def hasSub (needle : List Char) : List Char → Bool
  | [] => isPre needle []
  | c :: rest => isPre needle (c :: rest) || hasSub needle rest

def splitAux : List Char → List Char → List (List Char)
  | [], acc => if acc.isEmpty then [] else [acc.reverse]
  | c :: rest, acc =>
    if isSpaceA c then
      if acc.isEmpty then splitAux rest [] else acc.reverse :: splitAux rest []
    else splitAux rest (c :: acc)

/-- Python str.split() with no argument: split on whitespace runs, no empties. -/
def pySplit (s : List Char) : List (List Char) := splitAux s []

/-- Python str.strip(). -/
def pyStrip (s : List Char) : List Char :=
  ((s.dropWhile isSpaceA).reverse.dropWhile isSpaceA).reverse

/-! ### Keyword lists (verbatim from the two constructors) -/

def movieExclude : List String :=
  ["cakeday", "megathread", "discussion", "official", "trailer",
   "review", "question", "help", "where", "how", "what", "why",
   "reddit", "post", "thread", "ama", "announcement"]

def tvExclude : List String :=
  ["cakeday", "megathread", "help", "where", "how", "what", "why",
   "reddit", "post", "thread", "ama", "announcement", "trailer only"]

def rejectStartsMovie : List String :=
  ["how", "what", "where", "why", "when", "is", "are", "do", "does"]

def rejectStartsTV : List String :=
  ["how", "what", "where", "why", "when", "is", "are", "do", "does", "can"]

/-- word and word[0].isupper() for one token of title.split(). -/
def capStart : List Char → Bool
  | [] => false
  | c :: _ => isUpperA c

/-- TrendAnalyst._is_likely_movie.  none marks the one raising path
(title.split()[0] with an empty split), proved unreachable below. -/
def is_likely_movie (title : String) : Option Bool :=
  if title.data.length < 3 then some false
  else if movieExclude.any (fun k => hasSub k.data (pyLower title.data)) then some false
  else if (pySplit title.data).length > 8 then some false
  else if (pySplit title.data).countP capStart < 2 then some false
  else
    match pySplit title.data with
    | [] => none
    | w :: _ => some (!rejectStartsMovie.any (fun r => pyLower w == r.data))

/-- TVTrendAnalyst._is_likely_tv_show; same shape, TV keyword lists,
word-count ceiling 10. -/
def is_likely_tv_show (title : String) : Option Bool :=
  if title.data.length < 3 then some false
  else if tvExclude.any (fun k => hasSub k.data (pyLower title.data)) then some false
  else if (pySplit title.data).length > 10 then some false
  else if (pySplit title.data).countP capStart < 2 then some false
  else
    match pySplit title.data with
    | [] => none
    | w :: _ => some (!rejectStartsTV.any (fun r => pyLower w == r.data))

/-! ### Counter model -/

abbrev Cnt := List (String × Nat)

/-- buzz_scores[k] += v on a Counter: update in place if the key exists,
else append (dict insertion order). -/
def cntAdd (c : Cnt) (k : String) (v : Nat) : Cnt :=
  if c.any (fun p => p.1 == k) then
    c.map (fun p => if p.1 == k then (p.1, p.2 + v) else p)
  else c ++ [(k, v)]

def cntAddList (c : Cnt) (l : List (String × Nat)) : Cnt :=
  l.foldl (fun acc p => cntAdd acc p.1 p.2) c

/-- Counter lookup (missing keys count 0). -/
def cntGet : Cnt → String → Nat
  | [], _ => 0
  | p :: ps, k => if p.1 == k then p.2 else cntGet ps k

/-- Sort order of most_common: by descending count. -/
def scoreGE (a b : String × Nat) : Prop := b.2 ≤ a.2

instance : DecidableRel scoreGE := fun a b => Nat.decLe b.2 a.2

instance : IsTotal (String × Nat) scoreGE := ⟨fun a b => Nat.le_total b.2 a.2⟩

instance : IsTrans (String × Nat) scoreGE := ⟨fun _ _ _ h1 h2 => Nat.le_trans h2 h1⟩

/-- Counter.most_common(n): stable descending sort by count, first n items. -/
def mostCommon (c : Cnt) (n : Nat) : Cnt := (List.insertionSort scoreGE c).take n

/-- The filtering comprehension over the most_common candidates; none if the
filter raises on any candidate. -/
def filterCands (f : String → Option Bool) : Cnt → Option Cnt
  | [] => some []
  | p :: ps =>
    match f p.1, filterCands f ps with
    | some b, some r => some (if b then p :: r else r)
    | _, _ => none

/-! ### The two aggregators, parameterized by stub source responses -/

/-- Stubbed responses of the four movie sources, in the order the code
consumes them: _get_google_trends_scrape (dict), _get_reddit_scrape (dict),
_get_letterboxd_trending (list), _get_imdb_trending (list). -/
structure MovieSources where
  google : List (String × Nat)
  reddit : List (String × Nat)
  letterboxd : List String
  imdb : List String

/-- The per-source weighted contributions of analyze_trending_movies, in
program order: google ×4, reddit ×2, letterboxd[:8] +15, imdb[:5] +12. -/
def movieContribs (src : MovieSources) : List (String × Nat) :=
  src.google.map (fun p => (p.1, p.2 * 4))
    ++ src.reddit.map (fun p => (p.1, p.2 * 2))
    ++ (src.letterboxd.take 8).map (fun t => (t, 15))
    ++ (src.imdb.take 5).map (fun t => (t, 12))

/-- The buzz_scores Counter after all four movie source loops. -/
def movieBuzz (src : MovieSources) : Cnt := cntAddList [] (movieContribs src)

/-- TrendAnalyst.analyze_trending_movies with stubbed sources: accumulate,
take most_common(top_n*3), filter by _is_likely_movie, keep top_n.  Entries
are (title, buzz_score); rank is the 1-based list position. -/
def analyze_trending_movies (src : MovieSources) (top_n : Nat) :
    Option (List (String × Nat)) :=
  (filterCands is_likely_movie (mostCommon (movieBuzz src) (top_n * 3))).map
    (fun l => l.take top_n)

/-- Stubbed responses of the five TV sources in program order:
_get_reddit_tv_scrape (dict), _get_imdb_tv_trending (list),
_get_trakt_trending (list), _get_letterboxd_series (list),
_get_google_trends_tv (dict). -/
structure TVSources where
  reddit : List (String × Nat)
  imdb : List String
  trakt : List String
  letterboxd : List String
  google : List (String × Nat)

/-- Weighted contributions of analyze_trending_shows in program order:
reddit ×3, imdb[:8] +20, trakt[:10] +15, letterboxd[:8] +12, google ×2. -/
def tvContribs (src : TVSources) : List (String × Nat) :=
  src.reddit.map (fun p => (p.1, p.2 * 3))
    ++ (src.imdb.take 8).map (fun t => (t, 20))
    ++ (src.trakt.take 10).map (fun t => (t, 15))
    ++ (src.letterboxd.take 8).map (fun t => (t, 12))
    ++ src.google.map (fun p => (p.1, p.2 * 2))

def tvBuzz (src : TVSources) : Cnt := cntAddList [] (tvContribs src)

/-- TVTrendAnalyst.analyze_trending_shows with stubbed sources. -/
def analyze_trending_shows (src : TVSources) (top_n : Nat) :
    Option (List (String × Nat)) :=
  (filterCands is_likely_tv_show (mostCommon (tvBuzz src) (top_n * 3))).map
    (fun l => l.take top_n)

/-! ### A small backtracking regex engine

Each Python pattern used by the extractors is built from literals, character
classes, alternation, greedy option and greedy (bounded) repetition of a
character class, with a single referenced capture group.  mrun returns every
way the pattern can match a prefix of the input, as (remaining-suffix,
captured-group) pairs, in exactly the priority order CPython's backtracking
explores them (greedy repetition longest-first, alternation left-to-right);
re.search takes the first start position that matches and that position's
first alternative. -/

inductive RE where
  | lit : List Char → RE
  | litCI : List Char → RE
  | cls : (Char → Bool) → RE
  | seq : RE → RE → RE
  | alt : RE → RE → RE
  | opt : RE → RE
  | rep : (Char → Bool) → Nat → Option Nat → RE
  | grp : RE → RE

/-- Length of the maximal front run of characters satisfying p. -/
def runLen (p : Char → Bool) : List Char → Nat
  | [] => 0
  | c :: rest => if p c then runLen p rest + 1 else 0

def mrun : RE → List Char → List (List Char × Option (List Char))
  | .lit w, s => if isPre w s then [(s.drop w.length, none)] else []
  | .litCI w, s => if isPre (pyLower w) (pyLower s) then [(s.drop w.length, none)] else []
  | .cls p, s =>
    match s with
    | [] => []
    | c :: rest => if p c then [(rest, none)] else []
  | .seq a b, s =>
    (mrun a s).flatMap (fun pr =>
      (mrun b pr.1).map (fun qr => (qr.1, pr.2 <|> qr.2)))
  | .alt a b, s => mrun a s ++ mrun b s
  | .opt a, s => mrun a s ++ [(s, none)]
  | .rep p mn mx, s =>
    let L := runLen p s
    let hi := match mx with | some m => min m L | none => L
    (List.range (hi + 1 - mn)).map (fun i => (s.drop (hi - i), none))
  | .grp a, s =>
    (mrun a s).map (fun pr => (pr.1, some (s.take (s.length - pr.1.length))))

/-- re.search: scan start positions left to right, return the first match's
capture state. -/
def research (r : RE) : List Char → Option (Option (List Char))
  | [] =>
    match (mrun r []).head? with
    | some pr => some pr.2
    | none => none
  | c :: rest =>
    match (mrun r (c :: rest)).head? with
    | some pr => some pr.2
    | none => research r rest

/-- m.group(1) of re.search (every pattern below has its referenced group on
every successful match). -/
def research1 (r : RE) (s : List Char) : Option (List Char) :=
  (research r s).bind id

/-! ### Character classes of the patterns -/

def quoteC (c : Char) : Bool := c == '"' || c == '\''

def notQuoteC (c : Char) : Bool := !quoteC c

/-- The class [A-Za-z\s\':&-]. -/
def titleC (c : Char) : Bool :=
  isAlphaA c || isSpaceA c || c == '\'' || c == ':' || c == '&' || c == '-'

/-- The class [-–] (hyphen or en dash). -/
def dashC (c : Char) : Bool := c == '-' || c == '–'

def sSC (c : Char) : Bool := c == 'S' || c == 's'

def eEC (c : Char) : Bool := c == 'E' || c == 'e'

def strL (s : String) : RE := .lit s.data

def strCI (s : String) : RE := .litCI s.data

/-! ### The five movie Reddit patterns (_extract_movie_from_reddit) -/

/-- Pattern 1: ["\']([A-Z][^"\']{3,50})["\'] -/
def movP1 : RE :=
  .seq (.cls quoteC)
    (.seq (.grp (.seq (.cls isUpperA) (.rep notQuoteC 3 (some 50)))) (.cls quoteC))

/-- Pattern 2: ([A-Z][A-Za-z\s\':&-]{3,50})\s*\((202[0-9])\); the year group
is never referenced, so it is encoded without a capture. -/
def movP2 : RE :=
  .seq (.grp (.seq (.cls isUpperA) (.rep titleC 3 (some 50))))
    (.seq (.rep isSpaceA 0 none)
      (.seq (strL "(202") (.seq (.cls isDigitA) (strL ")"))))

/-- Pattern 3: \[(?:Discussion|Review|Official)\]\s*([A-Z][A-Za-z\s\':&-]{3,50}) -/
def movP3 : RE :=
  .seq (strL "[")
    (.seq (.alt (strL "Discussion") (.alt (strL "Review") (strL "Official")))
      (.seq (strL "]")
        (.seq (.rep isSpaceA 0 none)
          (.grp (.seq (.cls isUpperA) (.rep titleC 3 (some 50)))))))

/-- Pattern 4: ([A-Z][A-Za-z\s\':&-]{3,50})\s*\[(?:Discussion|Review) -/
def movP4 : RE :=
  .seq (.grp (.seq (.cls isUpperA) (.rep titleC 3 (some 50))))
    (.seq (.rep isSpaceA 0 none)
      (.seq (strL "[") (.alt (strL "Discussion") (strL "Review"))))

/-- Pattern 5:
(?:watched|saw|loved|hated)\s+["\']?([A-Z][A-Za-z\s\':&-]{3,50})["\']?(?:\s+(?:is|was|and))?
compiled with re.IGNORECASE, under which the literals compare
case-insensitively and the class [A-Z] matches any ASCII letter. -/
def movP5 : RE :=
  .seq (.alt (strCI "watched") (.alt (strCI "saw") (.alt (strCI "loved") (strCI "hated"))))
    (.seq (.rep isSpaceA 1 none)
      (.seq (.opt (.cls quoteC))
        (.seq (.grp (.seq (.cls isAlphaA) (.rep titleC 3 (some 50))))
          (.seq (.opt (.cls quoteC))
            (.opt (.seq (.rep isSpaceA 1 none)
              (.alt (strCI "is") (.alt (strCI "was") (strCI "and")))))))))

/-- TrendAnalyst._extract_movie_from_reddit: ordered pattern attempts, the
first matching pattern's stripped group(1) wins. -/
def extract_movie_from_reddit (text : String) : Option String :=
  match research1 movP1 text.data with
  | some c => some (String.mk (pyStrip c))
  | none =>
  match research1 movP2 text.data with
  | some c => some (String.mk (pyStrip c))
  | none =>
  match research1 movP3 text.data with
  | some c => some (String.mk (pyStrip c))
  | none =>
  match research1 movP4 text.data with
  | some c => some (String.mk (pyStrip c))
  | none =>
  match research1 movP5 text.data with
  | some c => some (String.mk (pyStrip c))
  | none => none

/-! ### The six TV Reddit patterns (_extract_show_from_reddit) -/

/-- Pattern 1: ["\']([A-Z][^"\']{3,60})["\'] -/
def tvP1 : RE :=
  .seq (.cls quoteC)
    (.seq (.grp (.seq (.cls isUpperA) (.rep notQuoteC 3 (some 60)))) (.cls quoteC))

/-- Pattern 2: ([A-Z][A-Za-z\s\':&-]{3,50})\s*[-–]\s*[Ss](?:eason)?\s*\d+ -/
def tvP2 : RE :=
  .seq (.grp (.seq (.cls isUpperA) (.rep titleC 3 (some 50))))
    (.seq (.rep isSpaceA 0 none)
      (.seq (.cls dashC)
        (.seq (.rep isSpaceA 0 none)
          (.seq (.cls sSC)
            (.seq (.opt (strL "eason"))
              (.seq (.rep isSpaceA 0 none) (.rep isDigitA 1 none)))))))

/-- Pattern 3: \[([A-Z][A-Za-z\s\':&-]{3,50})\] -/
def tvP3 : RE :=
  .seq (strL "[")
    (.seq (.grp (.seq (.cls isUpperA) (.rep titleC 3 (some 50)))) (strL "]"))

/-- Pattern 4: ([A-Z][A-Za-z\s\':&-]{3,50})\s*[Ss]\d+[Ee]\d+ -/
def tvP4 : RE :=
  .seq (.grp (.seq (.cls isUpperA) (.rep titleC 3 (some 50))))
    (.seq (.rep isSpaceA 0 none)
      (.seq (.cls sSC)
        (.seq (.rep isDigitA 1 none) (.seq (.cls eEC) (.rep isDigitA 1 none)))))

/-- Pattern 5: ([A-Z][A-Za-z\s\':&-]{3,50})\s*\d+x\d+ -/
def tvP5 : RE :=
  .seq (.grp (.seq (.cls isUpperA) (.rep titleC 3 (some 50))))
    (.seq (.rep isSpaceA 0 none)
      (.seq (.rep isDigitA 1 none) (.seq (strL "x") (.rep isDigitA 1 none))))

/-- Pattern 6:
(?:watched|binged|finished|loved|hated)\s+["\']?([A-Z][A-Za-z\s\':&-]{3,50})["\']?(?:\s+(?:is|was|and))?
with re.IGNORECASE (see movP5). -/
def tvP6 : RE :=
  .seq (.alt (strCI "watched")
      (.alt (strCI "binged") (.alt (strCI "finished") (.alt (strCI "loved") (strCI "hated")))))
    (.seq (.rep isSpaceA 1 none)
      (.seq (.opt (.cls quoteC))
        (.seq (.grp (.seq (.cls isAlphaA) (.rep titleC 3 (some 50))))
          (.seq (.opt (.cls quoteC))
            (.opt (.seq (.rep isSpaceA 1 none)
              (.alt (strCI "is") (.alt (strCI "was") (strCI "and")))))))))

def attributionWords : List String := ["said", "says", "told", "revealed"]

/-- TVTrendAnalyst._extract_show_from_reddit: like the movie version, but a
pattern-1 candidate containing an attribution verb is discarded and the later
patterns are tried instead. -/
def extract_show_from_reddit (text : String) : Option String :=
  let viaP1 : Option String :=
    match research1 tvP1 text.data with
    | some c =>
      let cand := pyStrip c
      if attributionWords.any (fun w => hasSub w.data (pyLower cand)) then none
      else some (String.mk cand)
    | none => none
  match viaP1 with
  | some t => some t
  | none =>
  match research1 tvP2 text.data with
  | some c => some (String.mk (pyStrip c))
  | none =>
  match research1 tvP3 text.data with
  | some c => some (String.mk (pyStrip c))
  | none =>
  match research1 tvP4 text.data with
  | some c => some (String.mk (pyStrip c))
  | none =>
  match research1 tvP5 text.data with
  | some c => some (String.mk (pyStrip c))
  | none =>
  match research1 tvP6 text.data with
  | some c => some (String.mk (pyStrip c))
  | none => none

/-! ### The generic fallback extractors -/

/-- Fallback rule ["\']([^"\']{3,})["\'] -/
def fbQuoted : RE :=
  .seq (.cls quoteC) (.seq (.grp (.rep notQuoteC 3 none)) (.cls quoteC))

/-- Fallback rule ([A-Z][a-zA-Z\s\':&-]{3,50})\s*\(202[0-9]\) -/
def fbYearM : RE :=
  .seq (.grp (.seq (.cls isUpperA) (.rep titleC 3 (some 50))))
    (.seq (.rep isSpaceA 0 none) (.seq (strL "(202") (.seq (.cls isDigitA) (strL ")"))))

/-- Fallback rule ([A-Z][a-zA-Z\s\':&-]{3,50})\s*(?:\(202[0-9]\)|[-–]\s*[Ss]eason) -/
def fbYearTV : RE :=
  .seq (.grp (.seq (.cls isUpperA) (.rep titleC 3 (some 50))))
    (.seq (.rep isSpaceA 0 none)
      (.alt (.seq (strL "(202") (.seq (.cls isDigitA) (strL ")")))
        (.seq (.cls dashC) (.seq (.rep isSpaceA 0 none) (.seq (.cls sSC) (strL "eason"))))))

/-- Word characters of regex \b (ASCII). -/
def isWordC (c : Char) : Bool := isAlphaA c || isDigitA c || c == '_'

/-- Scanner state for the findall below: outside an alphabetic run (recording
whether the previous character was a word character), inside a run whose
start position satisfied the leading \b with an uppercase first letter
(accumulating the run reversed), or inside a run that can produce no match
(interior start positions of a run all fail the leading \b). -/
inductive RunSt where
  | out : Bool → RunSt
  | inEligible : List Char → RunSt
  | inSkip : RunSt

/-- re.findall(r'\b[A-Z][a-zA-Z]{2,}\b', text).  Each match is a maximal
alphabetic run bounded by non-word characters (or the text ends) on both
sides, starting with an uppercase letter, of length at least 3: interior
start positions of a run fail the leading \b, and a trailing word character
defeats the closing \b at every backtracking length, so a run violating any
condition contributes no match. -/
def capRuns : RunSt → List Char → List (List Char)
  | st, [] =>
    match st with
    | .inEligible rev => if 3 ≤ rev.length then [rev.reverse] else []
    | _ => []
  | st, c :: rest =>
    match st with
    | .out prevW =>
      if isAlphaA c then
        if !prevW && isUpperA c then capRuns (.inEligible [c]) rest
        else capRuns .inSkip rest
      else capRuns (.out (isWordC c)) rest
    | .inEligible rev =>
      if isAlphaA c then capRuns (.inEligible (c :: rev)) rest
      else
        (if 3 ≤ rev.length && !isWordC c then [rev.reverse] else [])
          ++ capRuns (.out (isWordC c)) rest
    | .inSkip =>
      if isAlphaA c then capRuns .inSkip rest
      else capRuns (.out (isWordC c)) rest

def capWords (t : List Char) : List (List Char) := capRuns (.out false) t

/-- TrendAnalyst._extract_movie_title (generic fallback extractor):
quoted substring, then Title (202Y), then the joined capitalized words. -/
def extract_movie_title (text : String) : Option String :=
  let t := text.data
  if t.length < 5 then none
  else
    match research1 fbQuoted t with
    | some c => some (String.mk (pyStrip c))
    | none =>
    match research1 fbYearM t with
    | some c => some (String.mk (pyStrip c))
    | none =>
      let words := capWords t
      if 2 ≤ words.length then
        let title := List.intercalate [' '] (words.take 6)
        if 8 ≤ title.length ∧ title.length ≤ 60 then some (String.mk title) else none
      else none

/-- TVTrendAnalyst._extract_show_title (generic fallback extractor). -/
def extract_show_title (text : String) : Option String :=
  let t := text.data
  if t.length < 5 then none
  else
    match research1 fbQuoted t with
    | some c => some (String.mk (pyStrip c))
    | none =>
    match research1 fbYearTV t with
    | some c => some (String.mk (pyStrip c))
    | none =>
      let words := capWords t
      if 2 ≤ words.length ∧ words.length ≤ 8 then
        let title := List.intercalate [' '] (words.take 8)
        if 8 ≤ title.length ∧ title.length ≤ 80 then some (String.mk title) else none
      else none

/-! ### Counter arithmetic -/

/-- Total contribution of the entries of l carrying key k. -/
def sumFor (l : List (String × Nat)) (k : String) : Nat :=
  ((l.filter (fun p => p.1 == k)).map Prod.snd).sum

theorem cntGet_mapAdd (c : Cnt) (k : String) (v : Nat) :
    cntGet (c.map (fun p => if p.1 == k then (p.1, p.2 + v) else p)) k
      = cntGet c k + (if ∃ p ∈ c, p.1 = k then v else 0) := by
  induction c with
  | nil => simp [cntGet]
  | cons p ps ih =>
    by_cases hp : p.1 = k
    · simp [cntGet, hp]
    · have hex : (∃ x ∈ p :: ps, x.1 = k) ↔ (∃ x ∈ ps, x.1 = k) := by
        simp only [List.mem_cons]
        constructor
        · rintro ⟨x, hx | hx, hk⟩
          · subst hx; exact absurd hk hp
          · exact ⟨x, hx, hk⟩
        · rintro ⟨x, hx, hk⟩; exact ⟨x, Or.inr hx, hk⟩
      simp only [beq_iff_eq] at ih
      simp only [List.map_cons, cntGet, beq_iff_eq, hp, if_false, hex, ih]

theorem cntGet_mapAdd_ne (c : Cnt) (k q : String) (v : Nat) (hq : q ≠ k) :
    cntGet (c.map (fun p => if p.1 == k then (p.1, p.2 + v) else p)) q = cntGet c q := by
  induction c with
  | nil => rfl
  | cons p ps ih =>
    simp only [beq_iff_eq] at ih
    by_cases hp : p.1 = k
    · have hkq : k ≠ q := fun h => hq h.symm
      simp [cntGet, hp, hkq, ih]
    · simp only [List.map_cons, cntGet, beq_iff_eq, hp, if_false, ih]

theorem cntGet_append (c d : Cnt) (q : String) (h : ∀ p ∈ c, p.1 ≠ q) :
    cntGet (c ++ d) q = cntGet d q := by
  induction c with
  | nil => rfl
  | cons p ps ih =>
    have hp : p.1 ≠ q := h p (List.mem_cons_self _ _)
    simp only [List.cons_append, cntGet, beq_iff_eq, hp, if_false]
    exact ih (fun x hx => h x (List.mem_cons_of_mem _ hx))

theorem cntGet_eq_zero {c : Cnt} {q : String} (h : ∀ p ∈ c, p.1 ≠ q) :
    cntGet c q = 0 := by
  induction c with
  | nil => rfl
  | cons p ps ih =>
    have hp : p.1 ≠ q := h p (List.mem_cons_self _ _)
    simp only [cntGet, beq_iff_eq, hp, if_false]
    exact ih (fun x hx => h x (List.mem_cons_of_mem _ hx))

theorem cntGet_appendOne_ne (c : Cnt) (k q : String) (v : Nat) (hq : q ≠ k) :
    cntGet (c ++ [(k, v)]) q = cntGet c q := by
  induction c with
  | nil =>
    have : k ≠ q := fun h => hq h.symm
    simp [cntGet, this]
  | cons p ps ih =>
    by_cases hp : p.1 = q <;> simp [cntGet, hp, ih]

theorem cntGet_cntAdd (c : Cnt) (k q : String) (v : Nat) :
    cntGet (cntAdd c k v) q = cntGet c q + (if q = k then v else 0) := by
  unfold cntAdd
  split
  · rename_i h
    rw [List.any_eq_true] at h
    obtain ⟨p0, hp0, hk0⟩ := h
    rw [beq_iff_eq] at hk0
    by_cases hq : q = k
    · subst hq
      rw [cntGet_mapAdd]
      have hex : ∃ p ∈ c, p.1 = q := ⟨p0, hp0, hk0⟩
      simp [hex]
    · rw [cntGet_mapAdd_ne c k q v hq]
      simp [hq]
  · rename_i h
    have hf : ∀ p ∈ c, p.1 ≠ k := by
      intro p hp hk
      exact h (List.any_eq_true.mpr ⟨p, hp, beq_iff_eq.mpr hk⟩)
    by_cases hq : q = k
    · subst hq
      rw [cntGet_append c [(q, v)] q hf, cntGet_eq_zero hf]
      simp [cntGet]
    · rw [cntGet_appendOne_ne c k q v hq]
      simp [hq]

theorem sumFor_cons (p : String × Nat) (l : List (String × Nat)) (k : String) :
    sumFor (p :: l) k = (if p.1 = k then p.2 else 0) + sumFor l k := by
  by_cases h : p.1 = k <;> simp [sumFor, List.filter_cons, h]

theorem cntGet_cntAddList (l : List (String × Nat)) (c : Cnt) (k : String) :
    cntGet (cntAddList c l) k = cntGet c k + sumFor l k := by
  induction l generalizing c with
  | nil => simp [cntAddList, sumFor]
  | cons p ps ih =>
    show cntGet (cntAddList (cntAdd c p.1 p.2) ps) k = _
    rw [ih, cntGet_cntAdd, sumFor_cons]
    by_cases h : k = p.1
    · subst h
      simp
      omega
    · have h2 : p.1 ≠ k := Ne.symm h
      simp [h, h2]

theorem sumFor_append (a b : List (String × Nat)) (k : String) :
    sumFor (a ++ b) k = sumFor a k + sumFor b k := by
  induction a with
  | nil => simp [sumFor]
  | cons p ps ih =>
    rw [List.cons_append, sumFor_cons, sumFor_cons, ih]
    omega

theorem sumFor_map_mul (l : List (String × Nat)) (m : Nat) (k : String) :
    sumFor (l.map (fun p => (p.1, p.2 * m))) k = sumFor l k * m := by
  induction l with
  | nil => simp [sumFor]
  | cons p ps ih =>
    rw [List.map_cons, sumFor_cons, sumFor_cons, ih]
    by_cases h : p.1 = k <;> simp [h, Nat.add_mul]

theorem sumFor_map_const (ts : List String) (w : Nat) (k : String) :
    sumFor (ts.map (fun t => (t, w))) k = ts.count k * w := by
  induction ts with
  | nil => simp [sumFor]
  | cons t ts ih =>
    rw [List.map_cons, sumFor_cons, ih, List.count_cons]
    by_cases h : t = k
    · subst h
      simp [Nat.add_mul]
      omega
    · have h2 : ¬(t == k) = true := by simp [h]
      simp [h, h2]

/-- The accumulated movie buzz score of any title is the weighted sum of the
per-source contributions for that exact string. -/
theorem movieBuzz_score (src : MovieSources) (t : String) :
    cntGet (movieBuzz src) t =
      sumFor src.google t * 4 + sumFor src.reddit t * 2
        + (src.letterboxd.take 8).count t * 15 + (src.imdb.take 5).count t * 12 := by
  unfold movieBuzz movieContribs
  rw [cntGet_cntAddList, sumFor_append, sumFor_append, sumFor_append,
    sumFor_map_mul, sumFor_map_mul, sumFor_map_const, sumFor_map_const]
  simp only [cntGet]
  omega

/-- TV analogue of movieBuzz_score. -/
theorem tvBuzz_score (src : TVSources) (t : String) :
    cntGet (tvBuzz src) t =
      sumFor src.reddit t * 3 + (src.imdb.take 8).count t * 20
        + (src.trakt.take 10).count t * 15 + (src.letterboxd.take 8).count t * 12
        + sumFor src.google t * 2 := by
  unfold tvBuzz tvContribs
  rw [cntGet_cntAddList, sumFor_append, sumFor_append, sumFor_append, sumFor_append,
    sumFor_map_mul, sumFor_map_mul, sumFor_map_const, sumFor_map_const, sumFor_map_const]
  simp only [cntGet]
  omega

/-! ### Distinct keys of the accumulation structure -/

/-- Distinct-title relation on Counter entries. -/
def keysNe (a b : String × Nat) : Prop := a.1 ≠ b.1

theorem keysNe_symm : ∀ {a b : String × Nat}, keysNe a b → keysNe b a :=
  fun h => Ne.symm h

theorem cntAdd_pairwise {c : Cnt} (k : String) (v : Nat) (h : c.Pairwise keysNe) :
    (cntAdd c k v).Pairwise keysNe := by
  unfold cntAdd
  split
  · rw [List.pairwise_map]
    refine h.imp ?_
    intro a b hab
    have ha : ((if a.1 == k then (a.1, a.2 + v) else a)).1 = a.1 := by split <;> rfl
    have hb : ((if b.1 == k then (b.1, b.2 + v) else b)).1 = b.1 := by split <;> rfl
    unfold keysNe
    rw [ha, hb]
    exact hab
  · rename_i hany
    rw [List.pairwise_append]
    refine ⟨h, List.pairwise_singleton _ _, ?_⟩
    intro a ha b hb
    have hb' : b = (k, v) := by simpa using hb
    subst hb'
    have : ∀ p ∈ c, ¬((fun p : String × Nat => p.1 == k) p = true) := by
      intro p hp hcontra
      exact hany (List.any_eq_true.mpr ⟨p, hp, hcontra⟩)
    intro heq
    exact this a ha (by simp [keysNe] at heq ⊢; exact heq)

theorem cntAddList_pairwise (l : List (String × Nat)) {c : Cnt}
    (h : c.Pairwise keysNe) : (cntAddList c l).Pairwise keysNe := by
  induction l generalizing c with
  | nil => exact h
  | cons p ps ih => exact ih (cntAdd_pairwise p.1 p.2 h)

theorem movieBuzz_pairwise (src : MovieSources) : (movieBuzz src).Pairwise keysNe :=
  cntAddList_pairwise _ List.Pairwise.nil

theorem tvBuzz_pairwise (src : TVSources) : (tvBuzz src).Pairwise keysNe :=
  cntAddList_pairwise _ List.Pairwise.nil

theorem pairwiseKeys_nodup {l : Cnt} (h : l.Pairwise keysNe) : l.Nodup :=
  h.imp (fun hab heq => hab (congrArg Prod.fst heq))

/-! ### The filtering comprehension -/

theorem filterCands_sublist {f : String → Option Bool} :
    ∀ {l r : Cnt}, filterCands f l = some r → r <+ l := by
  intro l
  induction l with
  | nil =>
    intro r h
    simp only [filterCands, Option.some.injEq] at h
    subst h
    exact List.nil_sublist []
  | cons p ps ih =>
    intro r h
    unfold filterCands at h
    cases hf : f p.1 with
    | none => rw [hf] at h; exact absurd h (by simp)
    | some b =>
      cases hr : filterCands f ps with
      | none => rw [hf, hr] at h; exact absurd h (by simp)
      | some r' =>
        rw [hf, hr] at h
        simp only [Option.some.injEq] at h
        subst h
        cases b with
        | true => exact (ih hr).cons₂ p
        | false => exact (ih hr).cons p

theorem filterCands_total {f : String → Option Bool} (hf : ∀ s, f s ≠ none) :
    ∀ l : Cnt, ∃ r, filterCands f l = some r := by
  intro l
  induction l with
  | nil => exact ⟨[], rfl⟩
  | cons p ps ih =>
    obtain ⟨r, hr⟩ := ih
    cases hb : f p.1 with
    | none => exact absurd hb (hf p.1)
    | some b =>
      refine ⟨if b then p :: r else r, ?_⟩
      unfold filterCands
      rw [hb, hr]

theorem is_likely_movie_total (t : String) : is_likely_movie t ≠ none := by
  unfold is_likely_movie
  split
  · simp
  split
  · simp
  split
  · simp
  split
  · simp
  rename_i h4
  split
  · rename_i heq
    rw [heq] at h4
    simp at h4
  · simp

theorem is_likely_tv_show_total (t : String) : is_likely_tv_show t ≠ none := by
  unfold is_likely_tv_show
  split
  · simp
  split
  · simp
  split
  · simp
  split
  · simp
  rename_i h4
  split
  · rename_i heq
    rw [heq] at h4
    simp at h4
  · simp

/-! ### Pipeline lemmas -/

theorem analyze_movies_total (src : MovieSources) (n : Nat) :
    ∃ out, analyze_trending_movies src n = some out := by
  obtain ⟨r, hr⟩ :=
    filterCands_total (f := is_likely_movie) is_likely_movie_total
      (mostCommon (movieBuzz src) (n * 3))
  exact ⟨r.take n, by unfold analyze_trending_movies; rw [hr]; rfl⟩

theorem analyze_shows_total (src : TVSources) (n : Nat) :
    ∃ out, analyze_trending_shows src n = some out := by
  obtain ⟨r, hr⟩ :=
    filterCands_total (f := is_likely_tv_show) is_likely_tv_show_total
      (mostCommon (tvBuzz src) (n * 3))
  exact ⟨r.take n, by unfold analyze_trending_shows; rw [hr]; rfl⟩

theorem analyze_movies_spec {src : MovieSources} {n : Nat} {out : Cnt}
    (h : analyze_trending_movies src n = some out) :
    out.length ≤ n ∧ out.Pairwise scoreGE ∧ out.Pairwise keysNe := by
  unfold analyze_trending_movies at h
  rw [Option.map_eq_some'] at h
  obtain ⟨r, hr, hout⟩ := h
  subst hout
  have hsub : r.take n <+ List.insertionSort scoreGE (movieBuzz src) :=
    ((List.take_sublist _ _).trans (filterCands_sublist hr)).trans
      (List.take_sublist _ _)
  refine ⟨List.length_take_le _ _, ?_, ?_⟩
  · exact List.Pairwise.sublist hsub (List.sorted_insertionSort scoreGE _)
  · exact List.Pairwise.sublist hsub
      (((List.perm_insertionSort scoreGE _).pairwise_iff keysNe_symm).mpr
        (movieBuzz_pairwise src))

theorem analyze_shows_spec {src : TVSources} {n : Nat} {out : Cnt}
    (h : analyze_trending_shows src n = some out) :
    out.length ≤ n ∧ out.Pairwise scoreGE ∧ out.Pairwise keysNe := by
  unfold analyze_trending_shows at h
  rw [Option.map_eq_some'] at h
  obtain ⟨r, hr, hout⟩ := h
  subst hout
  have hsub : r.take n <+ List.insertionSort scoreGE (tvBuzz src) :=
    ((List.take_sublist _ _).trans (filterCands_sublist hr)).trans
      (List.take_sublist _ _)
  refine ⟨List.length_take_le _ _, ?_, ?_⟩
  · exact List.Pairwise.sublist hsub (List.sorted_insertionSort scoreGE _)
  · exact List.Pairwise.sublist hsub
      (((List.perm_insertionSort scoreGE _).pairwise_iff keysNe_symm).mpr
        (tvBuzz_pairwise src))

/-! ### Stability of the ranking -/

/-- Order projection: a two-element sublist of a duplicate-free list restricts
to any sublist containing both elements. -/
theorem pair_sublist_project {α : Type} {s o : List α} {p q : α}
    (ho : o <+ s) (hs : s.Nodup) (hpq : [p, q] <+ s) (hp : p ∈ o) (hq : q ∈ o) :
    [p, q] <+ o := by
  induction ho with
  | slnil => simp at hpq
  | cons a ho ih =>
    rw [List.nodup_cons] at hs
    obtain ⟨ha, hs₁⟩ := hs
    cases hpq with
    | cons _ hpq' => exact ih hs₁ hpq' hp hq
    | cons₂ _ hq' => exact absurd (ho.subset hp) ha
  | cons₂ a ho ih =>
    rw [List.nodup_cons] at hs
    obtain ⟨ha, hs₁⟩ := hs
    cases hpq with
    | cons _ hpq' =>
      rcases List.mem_cons.mp hp with rfl | hpo
      · exact absurd (hpq'.subset (List.mem_cons_self _ _)) ha
      · rcases List.mem_cons.mp hq with rfl | hqo
        · exact absurd (hpq'.subset (by simp)) ha
        · exact (ih hs₁ hpq' hpo hqo).cons a
    | cons₂ _ hq' =>
      have hqs := List.singleton_sublist.mp hq'
      rcases List.mem_cons.mp hq with rfl | hqo
      · exact absurd hqs ha
      · exact List.Sublist.cons₂ _ (List.singleton_sublist.mpr hqo)

theorem analyze_movies_stable {src : MovieSources} {n : Nat} {out : Cnt}
    {p q : String × Nat} (h : analyze_trending_movies src n = some out)
    (hpq : p.2 = q.2) (hbuzz : [p, q] <+ movieBuzz src)
    (hp : p ∈ out) (hq : q ∈ out) : [p, q] <+ out := by
  unfold analyze_trending_movies at h
  rw [Option.map_eq_some'] at h
  obtain ⟨r, hr, hout⟩ := h
  subst hout
  have hsorted : [p, q] <+ List.insertionSort scoreGE (movieBuzz src) :=
    List.pair_sublist_insertionSort (le_of_eq hpq.symm) hbuzz
  have hsub : r.take n <+ List.insertionSort scoreGE (movieBuzz src) :=
    ((List.take_sublist _ _).trans (filterCands_sublist hr)).trans
      (List.take_sublist _ _)
  have hnd : (List.insertionSort scoreGE (movieBuzz src)).Nodup :=
    pairwiseKeys_nodup
      (((List.perm_insertionSort scoreGE _).pairwise_iff keysNe_symm).mpr
        (movieBuzz_pairwise src))
  exact pair_sublist_project hsub hnd hsorted hp hq

theorem analyze_shows_stable {src : TVSources} {n : Nat} {out : Cnt}
    {p q : String × Nat} (h : analyze_trending_shows src n = some out)
    (hpq : p.2 = q.2) (hbuzz : [p, q] <+ tvBuzz src)
    (hp : p ∈ out) (hq : q ∈ out) : [p, q] <+ out := by
  unfold analyze_trending_shows at h
  rw [Option.map_eq_some'] at h
  obtain ⟨r, hr, hout⟩ := h
  subst hout
  have hsorted : [p, q] <+ List.insertionSort scoreGE (tvBuzz src) :=
    List.pair_sublist_insertionSort (le_of_eq hpq.symm) hbuzz
  have hsub : r.take n <+ List.insertionSort scoreGE (tvBuzz src) :=
    ((List.take_sublist _ _).trans (filterCands_sublist hr)).trans
      (List.take_sublist _ _)
  have hnd : (List.insertionSort scoreGE (tvBuzz src)).Nodup :=
    pairwiseKeys_nodup
      (((List.perm_insertionSort scoreGE _).pairwise_iff keysNe_symm).mpr
        (tvBuzz_pairwise src))
  exact pair_sublist_project hsub hnd hsorted hp hq

/-! ### Engine metatheory -/

theorem headQ_mem {α : Type} {l : List α} {a : α} (h : l.head? = some a) : a ∈ l := by
  cases l <;> simp_all

/-- Matching consumes a prefix: the remaining input is a suffix. -/
theorem mrun_suffix {r : RE} : ∀ {s : List Char} {pr : List Char × Option (List Char)},
    pr ∈ mrun r s → pr.1 <:+ s := by
  induction r with
  | lit w =>
    intro s pr h
    simp only [mrun] at h
    split at h
    · simp only [List.mem_singleton] at h
      subst h
      exact List.drop_suffix _ _
    · simp at h
  | litCI w =>
    intro s pr h
    simp only [mrun] at h
    split at h
    · simp only [List.mem_singleton] at h
      subst h
      exact List.drop_suffix _ _
    · simp at h
  | cls p =>
    intro s pr h
    cases s with
    | nil => simp [mrun] at h
    | cons c rest =>
      simp only [mrun] at h
      split at h
      · simp only [List.mem_singleton] at h
        subst h
        exact (List.suffix_cons c rest)
      · simp at h
  | seq a b iha ihb =>
    intro s pr h
    simp only [mrun, List.mem_flatMap] at h
    obtain ⟨pr1, h1, h2⟩ := h
    rw [List.mem_map] at h2
    obtain ⟨qr, hq, heq⟩ := h2
    have : pr.1 = qr.1 := by rw [← heq]
    rw [this]
    exact (ihb hq).trans (iha h1)
  | alt a b iha ihb =>
    intro s pr h
    simp only [mrun, List.mem_append] at h
    rcases h with h | h
    · exact iha h
    · exact ihb h
  | opt a iha =>
    intro s pr h
    simp only [mrun, List.mem_append] at h
    rcases h with h | h
    · exact iha h
    · simp only [List.mem_singleton] at h
      subst h
      exact List.suffix_rfl
  | rep p mn mx =>
    intro s pr h
    simp only [mrun, List.mem_map] at h
    obtain ⟨i, _, heq⟩ := h
    subst heq
    exact List.drop_suffix _ _
  | grp a iha =>
    intro s pr h
    simp only [mrun, List.mem_map] at h
    obtain ⟨pr1, h1, heq⟩ := h
    have : pr.1 = pr1.1 := by rw [← heq]
    rw [this]
    exact iha h1

/-- Patterns containing no capture group. -/
def grpFree : RE → Bool
  | .grp _ => false
  | .seq a b => grpFree a && grpFree b
  | .alt a b => grpFree a && grpFree b
  | .opt a => grpFree a
  | _ => true

theorem mrun_grpFree : ∀ {r : RE}, grpFree r = true →
    ∀ {s pr}, pr ∈ mrun r s → pr.2 = none := by
  intro r
  induction r with
  | lit w =>
    intro _ s pr h
    simp only [mrun] at h
    split at h
    · simp only [List.mem_singleton] at h; subst h; rfl
    · simp at h
  | litCI w =>
    intro _ s pr h
    simp only [mrun] at h
    split at h
    · simp only [List.mem_singleton] at h; subst h; rfl
    · simp at h
  | cls p =>
    intro _ s pr h
    cases s with
    | nil => simp [mrun] at h
    | cons c rest =>
      simp only [mrun] at h
      split at h
      · simp only [List.mem_singleton] at h; subst h; rfl
      · simp at h
  | seq a b iha ihb =>
    intro hg s pr h
    rw [show grpFree (.seq a b) = (grpFree a && grpFree b) from rfl, Bool.and_eq_true] at hg
    simp only [mrun, List.mem_flatMap] at h
    obtain ⟨pr1, h1, h2⟩ := h
    rw [List.mem_map] at h2
    obtain ⟨qr, hq, heq⟩ := h2
    have : pr.2 = (pr1.2 <|> qr.2) := by rw [← heq]
    rw [this, iha hg.1 h1, ihb hg.2 hq]
    rfl
  | alt a b iha ihb =>
    intro hg s pr h
    rw [show grpFree (.alt a b) = (grpFree a && grpFree b) from rfl, Bool.and_eq_true] at hg
    simp only [mrun, List.mem_append] at h
    rcases h with h | h
    · exact iha hg.1 h
    · exact ihb hg.2 h
  | opt a iha =>
    intro hg s pr h
    simp only [mrun, List.mem_append] at h
    rcases h with h | h
    · exact iha hg h
    · simp only [List.mem_singleton] at h; subst h; rfl
  | rep p mn mx =>
    intro _ s pr h
    simp only [mrun, List.mem_map] at h
    obtain ⟨i, _, heq⟩ := h
    subst heq
    rfl
  | grp a iha =>
    intro hg
    simp [grpFree] at hg

/-- Patterns whose referenced capture group, on any successful match, starts
with a character of class p. -/
inductive CapsUpper (p : Char → Bool) : RE → Prop
  | free (r : RE) : grpFree r = true → CapsUpper p r
  | grp (rest : RE) : CapsUpper p (.grp (.seq (.cls p) rest))
  | seq (a b : RE) : CapsUpper p a → CapsUpper p b → CapsUpper p (.seq a b)
  | alt (a b : RE) : CapsUpper p a → CapsUpper p b → CapsUpper p (.alt a b)
  | opt (a : RE) : CapsUpper p a → CapsUpper p (.opt a)

theorem mrun_capsUpper {p : Char → Bool} {r : RE} (hr : CapsUpper p r) :
    ∀ {s rem cap}, (rem, some cap) ∈ mrun r s → ∃ c cs, cap = c :: cs ∧ p c = true := by
  induction hr with
  | free r hg =>
    intro s rem cap h
    have := mrun_grpFree hg h
    simp at this
  | grp rest =>
    intro s rem cap h
    simp only [mrun, List.mem_map] at h
    obtain ⟨pr1, h1, heq⟩ := h
    have hcap : cap = s.take (s.length - pr1.1.length) := by
      have h2 := congrArg Prod.snd heq
      simp only at h2
      exact (Option.some.injEq _ _ ▸ h2).symm
    simp only [mrun, List.mem_flatMap] at h1
    obtain ⟨pr2, h2, h3⟩ := h1
    cases s with
    | nil => simp [mrun] at h2
    | cons c s₁ =>
      simp only [mrun] at h2
      split at h2
      · rename_i hpc
        simp only [List.mem_singleton] at h2
        subst h2
        rw [List.mem_map] at h3
        obtain ⟨qr, hq, heq2⟩ := h3
        have h11 : pr1.1 = qr.1 := by rw [← heq2]
        have hsuf : qr.1.length ≤ s₁.length := (mrun_suffix hq).length_le
        refine ⟨c, s₁.take (s₁.length - qr.1.length), ?_, hpc⟩
        rw [hcap, h11]
        have harith : (c :: s₁).length - qr.1.length = (s₁.length - qr.1.length) + 1 := by
          simp only [List.length_cons]
          omega
        rw [harith, List.take_succ_cons]
      · simp at h2
  | seq a b ha hb iha ihb =>
    intro s rem cap h
    simp only [mrun, List.mem_flatMap] at h
    obtain ⟨pr1, h1, h2⟩ := h
    rw [List.mem_map] at h2
    obtain ⟨qr, hq, heq⟩ := h2
    have hsnd : (pr1.2 <|> qr.2) = some cap := by
      have h3 := congrArg Prod.snd heq
      simpa using h3
    obtain ⟨r1, c1⟩ := pr1
    obtain ⟨r2, c2⟩ := qr
    cases c1 with
    | some c1v =>
      have : c1v = cap := by
        cases c2 <;> simpa using hsnd
      subst this
      exact iha h1
    | none =>
      have : c2 = some cap := by simpa using hsnd
      subst this
      exact ihb hq
  | alt a b ha hb iha ihb =>
    intro s rem cap h
    simp only [mrun, List.mem_append] at h
    rcases h with h | h
    · exact iha h
    · exact ihb h
  | opt a ha iha =>
    intro s rem cap h
    simp only [mrun, List.mem_append] at h
    rcases h with h | h
    · exact iha h
    · simp at h

theorem research_mem : ∀ {s : List Char} {r : RE} {co},
    research r s = some co → ∃ s' pr, pr ∈ mrun r s' ∧ pr.2 = co := by
  intro s
  induction s with
  | nil =>
    intro r co h
    simp only [research] at h
    cases hh : (mrun r []).head? with
    | some pr =>
      rw [hh] at h
      simp only [Option.some.injEq] at h
      exact ⟨[], pr, headQ_mem hh, h⟩
    | none => rw [hh] at h; simp at h
  | cons c rest ih =>
    intro r co h
    simp only [research] at h
    cases hh : (mrun r (c :: rest)).head? with
    | some pr =>
      rw [hh] at h
      simp only [Option.some.injEq] at h
      exact ⟨c :: rest, pr, headQ_mem hh, h⟩
    | none =>
      rw [hh] at h
      exact ih h

theorem research1_capsUpper {p : Char → Bool} {r : RE} (hr : CapsUpper p r)
    {s : List Char} {cap : List Char} (h : research1 r s = some cap) :
    ∃ c cs, cap = c :: cs ∧ p c = true := by
  unfold research1 at h
  cases hre : research r s with
  | none => rw [hre] at h; simp at h
  | some co =>
    rw [hre] at h
    have hco : co = some cap := by simpa using h
    subst hco
    obtain ⟨s', pr, hmem, hsnd⟩ := research_mem hre
    obtain ⟨rem, capv⟩ := pr
    simp only at hsnd
    subst hsnd
    exact mrun_capsUpper hr hmem

theorem space_not_upper {c : Char} (h : isSpaceA c = true) : isUpperA c = false := by
  unfold isSpaceA at h
  simp only [Bool.or_eq_true, beq_iff_eq] at h
  rcases h with ((((rfl | rfl) | rfl) | rfl) | rfl) | rfl <;> decide

theorem upper_not_space {c : Char} (h : isUpperA c = true) : isSpaceA c = false := by
  cases hs : isSpaceA c
  · rfl
  · rw [space_not_upper hs] at h
    cases h

theorem dropWhile_append_single {p : Char → Bool} {l : List Char} {c : Char}
    (hc : p c = false) :
    (l ++ [c]).dropWhile p = l.dropWhile p ++ [c] := by
  induction l with
  | nil => simp [List.dropWhile, hc]
  | cons a l ih =>
    by_cases hp : p a = true
    · simp [List.dropWhile_cons, hp, ih]
    · simp [List.dropWhile_cons, hp]

/-- Stripping a string that starts with a non-whitespace character keeps that
first character in place. -/
theorem pyStrip_cons_head {c : Char} {cs : List Char} (hc : isSpaceA c = false) :
    ∃ cs', pyStrip (c :: cs) = c :: cs' := by
  unfold pyStrip
  rw [List.dropWhile_cons]
  simp only [hc, Bool.false_eq_true, if_false]
  rw [List.reverse_cons, dropWhile_append_single hc, List.reverse_append]
  exact ⟨(cs.reverse.dropWhile isSpaceA).reverse, rfl⟩

/-- A matched capture of a pattern whose group leads with class p, stripped,
still starts with a character of class p (classes of interest contain no
whitespace). -/
theorem research1_stripUpper {r : RE} (hr : CapsUpper isUpperA r)
    {s cap : List Char} (h : research1 r s = some cap) :
    ∃ c cs, pyStrip cap = c :: cs ∧ isUpperA c = true := by
  obtain ⟨c, cs, rfl, hc⟩ := research1_capsUpper hr h
  obtain ⟨cs', h'⟩ := pyStrip_cons_head (upper_not_space hc)
  exact ⟨c, cs', h', hc⟩

theorem movP1_caps : CapsUpper isUpperA movP1 :=
  .seq _ _ (.free _ rfl) (.seq _ _ (.grp _) (.free _ rfl))

theorem movP2_caps : CapsUpper isUpperA movP2 :=
  .seq _ _ (.grp _) (.free _ rfl)

theorem movP3_caps : CapsUpper isUpperA movP3 :=
  .seq _ _ (.free _ rfl)
    (.seq _ _ (.free _ rfl) (.seq _ _ (.free _ rfl) (.seq _ _ (.free _ rfl) (.grp _))))

theorem movP4_caps : CapsUpper isUpperA movP4 :=
  .seq _ _ (.grp _) (.free _ rfl)

theorem tvP1_caps : CapsUpper isUpperA tvP1 :=
  .seq _ _ (.free _ rfl) (.seq _ _ (.grp _) (.free _ rfl))

theorem tvP2_caps : CapsUpper isUpperA tvP2 :=
  .seq _ _ (.grp _) (.free _ rfl)

theorem tvP3_caps : CapsUpper isUpperA tvP3 :=
  .seq _ _ (.free _ rfl) (.seq _ _ (.grp _) (.free _ rfl))

theorem tvP4_caps : CapsUpper isUpperA tvP4 :=
  .seq _ _ (.grp _) (.free _ rfl)

theorem tvP5_caps : CapsUpper isUpperA tvP5 :=
  .seq _ _ (.grp _) (.free _ rfl)

/-- Any output of the movie Reddit extractor that does not come from the
IGNORECASE verb pattern (pattern 5) starts with an uppercase letter. -/
theorem extract_movie_upper {text t : String}
    (h5 : research1 movP5 text.data = none)
    (h : extract_movie_from_reddit text = some t) :
    ∃ c cs, t.data = c :: cs ∧ isUpperA c = true := by
  unfold extract_movie_from_reddit at h
  cases h1 : research1 movP1 text.data with
  | some c =>
    rw [h1] at h
    simp only [Option.some.injEq] at h
    subst h
    exact research1_stripUpper movP1_caps h1
  | none =>
    rw [h1] at h
    cases h2 : research1 movP2 text.data with
    | some c =>
      rw [h2] at h
      simp only [Option.some.injEq] at h
      subst h
      exact research1_stripUpper movP2_caps h2
    | none =>
      rw [h2] at h
      cases h3 : research1 movP3 text.data with
      | some c =>
        rw [h3] at h
        simp only [Option.some.injEq] at h
        subst h
        exact research1_stripUpper movP3_caps h3
      | none =>
        rw [h3] at h
        cases h4 : research1 movP4 text.data with
        | some c =>
          rw [h4] at h
          simp only [Option.some.injEq] at h
          subst h
          exact research1_stripUpper movP4_caps h4
        | none =>
          rw [h4, h5] at h
          cases h

/-! ### Claim theorems -/

/-- Claim C1, counterexample: with the spec's stub sources (search trends
{Oppenheimer: 1} ×4, forum {Oppenheimer: 1, Barbie: 1} ×2, tracking list
[Oppenheimer] +15) and top_n = 2, the movie aggregator does NOT return
[(Oppenheimer, 21), (Barbie, 2)]; it returns the empty list. -/
theorem c1_counterexample :
    analyze_trending_movies
        ⟨[("Oppenheimer", 1)], [("Oppenheimer", 1), ("Barbie", 1)], ["Oppenheimer"], []⟩ 2
      = some []
    ∧ analyze_trending_movies
        ⟨[("Oppenheimer", 1)], [("Oppenheimer", 1), ("Barbie", 1)], ["Oppenheimer"], []⟩ 2
      ≠ some [("Oppenheimer", 21), ("Barbie", 2)] :=
  ⟨by decide, by decide⟩

/-- Claim C1 as amended: with those stubs the accumulated scores are
Oppenheimer 21 and Barbie 2, in that order, but both single-word titles fail
the plausibility filter (fewer than 2 capitalized words), so
aggregate(MOVIE, 2) returns the empty list. -/
theorem c1_amended :
    movieBuzz ⟨[("Oppenheimer", 1)], [("Oppenheimer", 1), ("Barbie", 1)], ["Oppenheimer"], []⟩
      = [("Oppenheimer", 21), ("Barbie", 2)]
    ∧ is_likely_movie "Oppenheimer" = some false
    ∧ is_likely_movie "Barbie" = some false
    ∧ analyze_trending_movies
        ⟨[("Oppenheimer", 1)], [("Oppenheimer", 1), ("Barbie", 1)], ["Oppenheimer"], []⟩ 2
      = some [] :=
  ⟨by decide, by decide, by decide, by decide⟩

/-- Claim C2: for both domains, any top_n and any stub responses, the ranked
output has length at most top_n, is sorted by non-increasing buzz_score, and
its titles are pairwise distinct. -/
theorem c2_ranked_output :
    (∀ (src : MovieSources) (n : Nat) (out : Cnt),
        analyze_trending_movies src n = some out →
        out.length ≤ n ∧ out.Pairwise scoreGE ∧ out.Pairwise keysNe)
    ∧ (∀ (src : TVSources) (n : Nat) (out : Cnt),
        analyze_trending_shows src n = some out →
        out.length ≤ n ∧ out.Pairwise scoreGE ∧ out.Pairwise keysNe) :=
  ⟨fun _ _ _ h => analyze_movies_spec h, fun _ _ _ h => analyze_shows_spec h⟩

/-- Witness for C2 at a concrete stub configuration. -/
theorem c2_witness :
    ([("Dune Two", 4), ("Blade Runner", 4)] : Cnt).length ≤ 2
      ∧ ([("Dune Two", 4), ("Blade Runner", 4)] : Cnt).Pairwise scoreGE
      ∧ ([("Dune Two", 4), ("Blade Runner", 4)] : Cnt).Pairwise keysNe :=
  c2_ranked_output.1 ⟨[("Dune Two", 1), ("Blade Runner", 1)], [], [], []⟩ 2
    [("Dune Two", 4), ("Blade Runner", 4)] (by decide)

/-- Claim C3: with all sources empty both aggregators return the empty list,
and for every stub configuration both aggregators return some ranked list
(no raising path is reachable). -/
theorem c3_empty_total :
    (∀ n, analyze_trending_movies ⟨[], [], [], []⟩ n = some [])
    ∧ (∀ n, analyze_trending_shows ⟨[], [], [], [], []⟩ n = some [])
    ∧ (∀ (src : MovieSources) (n : Nat), ∃ out, analyze_trending_movies src n = some out)
    ∧ (∀ (src : TVSources) (n : Nat), ∃ out, analyze_trending_shows src n = some out) := by
  refine ⟨?_, ?_, analyze_movies_total, analyze_shows_total⟩
  · intro n
    unfold analyze_trending_movies mostCommon movieBuzz movieContribs
    simp [cntAddList, filterCands]
  · intro n
    unfold analyze_trending_shows mostCommon tvBuzz tvContribs
    simp [cntAddList, filterCands]

/-- Claim C4: after all sources are merged (before plausibility filtering),
every title's accumulated score is the sum over sources of weight ×
multiplier for each occurrence of that exact title string; in particular two
sources contributing "Dune" with weights 10 and 5 and multipliers 4 and 2
accumulate 10×4 + 5×2 = 50. -/
theorem c4_accumulation :
    (∀ (src : MovieSources) (t : String),
        cntGet (movieBuzz src) t =
          sumFor src.google t * 4 + sumFor src.reddit t * 2
            + (src.letterboxd.take 8).count t * 15 + (src.imdb.take 5).count t * 12)
    ∧ (∀ (src : TVSources) (t : String),
        cntGet (tvBuzz src) t =
          sumFor src.reddit t * 3 + (src.imdb.take 8).count t * 20
            + (src.trakt.take 10).count t * 15 + (src.letterboxd.take 8).count t * 12
            + sumFor src.google t * 2)
    ∧ cntGet (movieBuzz ⟨[("Dune", 10)], [("Dune", 5)], [], []⟩) "Dune" = 10 * 4 + 5 * 2 :=
  ⟨movieBuzz_score, tvBuzz_score, by decide⟩

/-- Claim C5: in both domains the final ranking is a stable descending sort:
whenever two accumulated entries have equal scores and both survive to the
output, the one inserted first into the accumulation structure precedes the
other. -/
theorem c5_stable_ties :
    (∀ (src : MovieSources) (n : Nat) (out : Cnt) (p q : String × Nat),
        analyze_trending_movies src n = some out → p.2 = q.2 →
        [p, q] <+ movieBuzz src → p ∈ out → q ∈ out → [p, q] <+ out)
    ∧ (∀ (src : TVSources) (n : Nat) (out : Cnt) (p q : String × Nat),
        analyze_trending_shows src n = some out → p.2 = q.2 →
        [p, q] <+ tvBuzz src → p ∈ out → q ∈ out → [p, q] <+ out) :=
  ⟨fun _ _ _ _ _ h h1 h2 h3 h4 => analyze_movies_stable h h1 h2 h3 h4,
   fun _ _ _ _ _ h h1 h2 h3 h4 => analyze_shows_stable h h1 h2 h3 h4⟩

/-- Witness for C5: a concrete tie, kept in first-seen order. -/
theorem c5_witness :
    [(("Dune Two", 4) : String × Nat), ("Blade Runner", 4)] <+
      ([("Dune Two", 4), ("Blade Runner", 4)] : Cnt) :=
  c5_stable_ties.1 ⟨[("Dune Two", 1), ("Blade Runner", 1)], [], [], []⟩ 2
    [("Dune Two", 4), ("Blade Runner", 4)] ("Dune Two", 4) ("Blade Runner", 4)
    (by decide) rfl (by decide) (by decide) (by decide)

/-- Claim C6: the Reddit-pattern extractors return the first matching rule's
capture: the three spec examples, plus first-rule priority for the movie
quoted-title pattern. -/
theorem c6_extractor :
    extract_movie_from_reddit "I just watched \"Oppenheimer\" last night" = some "Oppenheimer"
    ∧ extract_show_from_reddit "The Bear - Season 3 Review" = some "The Bear"
    ∧ extract_movie_from_reddit "random text with no pattern" = none
    ∧ (∀ (text : String) (c : List Char), research1 movP1 text.data = some c →
        extract_movie_from_reddit text = some (String.mk (pyStrip c))) := by
  refine ⟨by decide, by decide, by decide, ?_⟩
  intro text c h
  unfold extract_movie_from_reddit
  rw [h]

/-- Witness for C6's first-rule-priority conjunct at a concrete input. -/
theorem c6_witness :
    extract_movie_from_reddit "I just watched \"Oppenheimer\" last night"
      = some (String.mk (pyStrip "Oppenheimer".data)) :=
  c6_extractor.2.2.2 "I just watched \"Oppenheimer\" last night" "Oppenheimer".data
    (by decide)

/-- Claim C7: the three spec examples of the plausibility filter, for both
domains. -/
theorem c7_filter_examples :
    is_likely_movie "How I Met Your Mother" = some false
    ∧ is_likely_tv_show "How I Met Your Mother" = some false
    ∧ is_likely_movie "Dune Part Two" = some true
    ∧ is_likely_tv_show "Dune Part Two" = some true
    ∧ is_likely_movie "official trailer discussion" = some false
    ∧ is_likely_tv_show "official trailer discussion" = some false :=
  ⟨by decide, by decide, by decide, by decide, by decide, by decide⟩

/-- Claim C8, counterexample: on a run of 7 consecutive capitalized words,
whose joined length (27) is within the claimed 8-60 movie bounds, the movie
fallback extractor does not return the joined run: it joins only the first 6
collected words. -/
theorem c8_counterexample :
    capWords "Aaa Bbb Ccc Ddd Eee Fff Ggg".data
        = ["Aaa".data, "Bbb".data, "Ccc".data, "Ddd".data, "Eee".data, "Fff".data, "Ggg".data]
    ∧ 8 ≤ (List.intercalate [' '] (capWords "Aaa Bbb Ccc Ddd Eee Fff Ggg".data)).length
    ∧ (List.intercalate [' '] (capWords "Aaa Bbb Ccc Ddd Eee Fff Ggg".data)).length ≤ 60
    ∧ extract_movie_title "Aaa Bbb Ccc Ddd Eee Fff Ggg" = some "Aaa Bbb Ccc Ddd Eee Fff"
    ∧ ("Aaa Bbb Ccc Ddd Eee Fff" : String) ≠ "Aaa Bbb Ccc Ddd Eee Fff Ggg" :=
  ⟨by decide, by decide, by decide, by decide, by decide⟩

/-- Claim C8 as amended: once the quoted and year rules fail (and the text
has length at least 5), the movie fallback collects all capitalized tokens
(not necessarily consecutive), requires at least 2 of them, joins the first
6 with spaces and returns that join exactly when its length is 8-60; the TV
fallback requires 2-8 tokens, joins the first 8, with bounds 8-80. -/
theorem c8_amended :
    (∀ (text : String), ¬text.data.length < 5 →
      research1 fbQuoted text.data = none → research1 fbYearM text.data = none →
      extract_movie_title text =
        if 2 ≤ (capWords text.data).length ∧
            8 ≤ (List.intercalate [' '] ((capWords text.data).take 6)).length ∧
            (List.intercalate [' '] ((capWords text.data).take 6)).length ≤ 60
        then some (String.mk (List.intercalate [' '] ((capWords text.data).take 6)))
        else none)
    ∧ (∀ (text : String), ¬text.data.length < 5 →
      research1 fbQuoted text.data = none → research1 fbYearTV text.data = none →
      extract_show_title text =
        if (2 ≤ (capWords text.data).length ∧ (capWords text.data).length ≤ 8) ∧
            8 ≤ (List.intercalate [' '] ((capWords text.data).take 8)).length ∧
            (List.intercalate [' '] ((capWords text.data).take 8)).length ≤ 80
        then some (String.mk (List.intercalate [' '] ((capWords text.data).take 8)))
        else none) := by
  constructor
  · intro text hlen hq hy
    unfold extract_movie_title
    rw [if_neg hlen, hq, hy]
    by_cases h1 : 2 ≤ (capWords text.data).length
    · by_cases h2 : 8 ≤ (List.intercalate [' '] ((capWords text.data).take 6)).length ∧
          (List.intercalate [' '] ((capWords text.data).take 6)).length ≤ 60
      · simp [h1, h2]
      · simp [h1, h2]
    · simp [h1]
  · intro text hlen hq hy
    unfold extract_show_title
    rw [if_neg hlen, hq, hy]
    by_cases h1 : 2 ≤ (capWords text.data).length ∧ (capWords text.data).length ≤ 8
    · by_cases h2 : 8 ≤ (List.intercalate [' '] ((capWords text.data).take 8)).length ∧
          (List.intercalate [' '] ((capWords text.data).take 8)).length ≤ 80
      · simp [h1, h2]
      · simp [h1, h2]
    · simp [h1]

/-- Witness for C8's amended characterization at a concrete input. -/
theorem c8_witness :
    extract_movie_title "Aaa Bbb Ccc Ddd Eee Fff Ggg" =
      if 2 ≤ (capWords "Aaa Bbb Ccc Ddd Eee Fff Ggg".data).length ∧
          8 ≤ (List.intercalate [' ']
            ((capWords "Aaa Bbb Ccc Ddd Eee Fff Ggg".data).take 6)).length ∧
          (List.intercalate [' ']
            ((capWords "Aaa Bbb Ccc Ddd Eee Fff Ggg".data).take 6)).length ≤ 60
      then some (String.mk (List.intercalate [' ']
        ((capWords "Aaa Bbb Ccc Ddd Eee Fff Ggg".data).take 6)))
      else none :=
  c8_amended.1 "Aaa Bbb Ccc Ddd Eee Fff Ggg" (by decide) (by decide) (by decide)

/-- Claim C9, counterexample: "trailer" is a movie exclusion keyword that is
absent from the TV set even though it is not among the three removals the
claim allows, so the claimed set equation fails. -/
theorem c9_counterexample :
    ¬((("trailer" : String) ∈ tvExclude) ↔
        ((("trailer" : String) ∈ movieExclude ∧
          ("trailer" : String) ∉ (["discussion", "review", "question"] : List String))
         ∨ ("trailer" : String) = "trailer only")) := by
  decide

/-- Claim C9 as amended: both filters reject any title containing an
exclusion keyword as a case-insensitive substring, and the TV exclusion set
equals the movie set with "trailer only" added and exactly "discussion",
"official", "trailer", "review" and "question" removed. -/
theorem c9_amended :
    (∀ (title kw : String), kw ∈ movieExclude →
        hasSub kw.data (pyLower title.data) = true → is_likely_movie title = some false)
    ∧ (∀ (title kw : String), kw ∈ tvExclude →
        hasSub kw.data (pyLower title.data) = true → is_likely_tv_show title = some false)
    ∧ (∀ s : String, s ∈ tvExclude ↔
        ((s ∈ movieExclude ∧
            s ∉ (["discussion", "official", "trailer", "review", "question"] : List String))
          ∨ s = "trailer only")) := by
  refine ⟨?_, ?_, ?_⟩
  · intro title kw hkw hsub
    unfold is_likely_movie
    split
    · rfl
    · rw [if_pos (List.any_eq_true.mpr ⟨kw, hkw, hsub⟩)]
  · intro title kw hkw hsub
    unfold is_likely_tv_show
    split
    · rfl
    · rw [if_pos (List.any_eq_true.mpr ⟨kw, hkw, hsub⟩)]
  · intro s
    constructor
    · intro h
      have hall : ∀ x ∈ tvExclude,
          (x ∈ movieExclude ∧
            x ∉ (["discussion", "official", "trailer", "review", "question"] : List String))
          ∨ x = "trailer only" := by decide
      exact hall s h
    · rintro (⟨hm, hn⟩ | rfl)
      · have hall : ∀ x ∈ movieExclude,
            x ∉ (["discussion", "official", "trailer", "review", "question"] : List String) →
            x ∈ tvExclude := by decide
        exact hall s hm hn
      · decide

/-- Witness for C9's amended keyword-rejection conjunct. -/
theorem c9_witness : is_likely_movie "The Trailer Movie" = some false :=
  c9_amended.1 "The Trailer Movie" "trailer" (by decide) (by decide)

/-- Claim C10: because the verb pattern is matched with IGNORECASE, its
[A-Z] capture class accepts lowercase: on "I watched the movie yesterday"
both Reddit extractors return "the movie yesterday", which starts lowercase,
while every other rule only yields candidates starting with an uppercase
letter. -/
theorem c10_ignorecase :
    (extract_movie_from_reddit "I watched the movie yesterday" = some "the movie yesterday"
      ∧ "the movie yesterday".data.head? = some 't' ∧ isLowerA 't' = true)
    ∧ extract_show_from_reddit "I watched the movie yesterday" = some "the movie yesterday"
    ∧ (∀ (text t : String), research1 movP5 text.data = none →
        extract_movie_from_reddit text = some t →
        ∃ c cs, t.data = c :: cs ∧ isUpperA c = true)
    ∧ (∀ (s cap : List Char),
        (research1 tvP1 s = some cap ∨ research1 tvP2 s = some cap ∨
          research1 tvP3 s = some cap ∨ research1 tvP4 s = some cap ∨
          research1 tvP5 s = some cap) →
        ∃ c cs, pyStrip cap = c :: cs ∧ isUpperA c = true) := by
  refine ⟨⟨by decide, by decide, by decide⟩, by decide,
    fun _ _ h5 h => extract_movie_upper h5 h, ?_⟩
  rintro s cap (h | h | h | h | h)
  · exact research1_stripUpper tvP1_caps h
  · exact research1_stripUpper tvP2_caps h
  · exact research1_stripUpper tvP3_caps h
  · exact research1_stripUpper tvP4_caps h
  · exact research1_stripUpper tvP5_caps h

/-- Witness for C10's universal conjuncts at concrete inputs. -/
theorem c10_witness :
    ∃ c cs, ("Abcd" : String).data = c :: cs ∧ isUpperA c = true :=
  c10_ignorecase.2.2.1 "\"Abcd\" stuff" "Abcd" (by decide) (by decide)

end TrendCore
